import Mathlib

/-!
Shallow embedding of the portfolio-reporting metrics and filter services
(app/services/metrics.py and app/services/filters.py).

Modelling conventions:
* a pandas DataFrame row becomes a Lean structure; a DataFrame becomes a list
  of rows (row order models the positional index);
* float columns become rationals, dates become integers (days);
* an optional column value (NaN) becomes an Option;
* a float division whose result is non-finite (denominator 0 gives inf or
  NaN in pandas) is modelled as an Option that is none in that case;
* code that raises an exception (integer division by zero) returns none.
-/

/-- Row of the holdings table (see the data model in the spec and the columns
used by metrics.py / filters.py).  The sector column is optional; the
liquidity column may be categorical (a string) and the liquidity_score column
numeric; which columns exist in a concrete table is passed separately where it
matters, mirroring the dtype / column-presence checks of the code. -/
structure Holding where
  asset_name : String
  asset_type : String
  region : String
  sector : Option String
  account_id : String
  last_valuation_date : Int
  valuation_current : Rat
  valuation_cost_basis : Rat
  liquidity : Option String
  liquidity_score : Rat
deriving DecidableEq

/-- Row of a NAV series with the date and value columns used by metrics.py. -/
structure NavPoint where
  date : Int
  value : Rat
deriving DecidableEq

/-- Row of the transactions table with the columns used by filters.py. -/
structure TransactionRow where
  date : Int
  type : String
  asset_name : String
  account_id : String
  amount : Rat
deriving DecidableEq

/-- The raw NAV table handled by filter_nav: a date, a total_value column and
possibly per-account value columns.  The list of column names is kept
explicitly because filter_nav branches on column presence. -/
structure NavTableRow where
  date : Int
  total_value : Rat
  account_values : List (String × Rat)
deriving DecidableEq

/-- Column names together with the rows of the raw NAV table. -/
structure NavTable where
  columns : List String
  rows : List NavTableRow
deriving DecidableEq

/-- Total of the valuation_current column, as computed by the repeated
holdings["valuation_current"].sum() idiom of metrics.py. -/
def totalValuation (holdings : List Holding) : Rat :=
  (holdings.map Holding.valuation_current).sum

/-- Sort of a NAV frame by the date column, ascending (nav.sort_values("date")). -/
def sortNavByDate (nav : List NavPoint) : List NavPoint :=
  List.insertionSort (fun p q => p.date ≤ q.date) nav

/-- Sort of the holdings by valuation_current descending and truncation to n
rows: holdings.nlargest(n, "valuation_current").  nlargest keeps the first
occurrence on ties, which a stable descending sort reproduces. -/
def nlargestHoldings (n : Nat) (holdings : List Holding) : List Holding :=
  (List.insertionSort (fun a b => b.valuation_current ≤ a.valuation_current) holdings).take n

/-- Result record of calculate_returns_from_nav. -/
structure ReturnsResult where
  return_pct : Rat
  return_abs : Rat
  start_value : Rat
  end_value : Rat
deriving DecidableEq

/-- Embedding of metrics.calculate_returns_from_nav. -/
def calculate_returns_from_nav (nav : List NavPoint) (period_days : Int) : ReturnsResult :=
  if nav.length < 2 then ⟨0, 0, 0, 0⟩
  else
    let s := sortNavByDate nav
    let end_value := ((s.getLast?).map NavPoint.value).getD 0
    let end_date := ((s.getLast?).map NavPoint.date).getD 0
    let start_date := end_date - period_days
    let nav_period0 := s.filter (fun p => start_date ≤ p.date)
    let nav_period := if nav_period0.isEmpty then s else nav_period0
    let start_value := ((nav_period.head?).map NavPoint.value).getD 0
    let return_pct := if 0 < start_value then (end_value / start_value - 1) * 100 else 0
    ⟨return_pct, end_value - start_value, start_value, end_value⟩

/-- Running maximum of a value list with accumulator, the recursion behind
np.maximum.accumulate. -/
def runningMaxAux (m : Rat) : List Rat → List Rat
  | [] => []
  | x :: xs => max m x :: runningMaxAux (max m x) xs

/-- Embedding of np.maximum.accumulate(values). -/
def runningMax : List Rat → List Rat
  | [] => []
  | x :: xs => x :: runningMaxAux x xs

/-- Drawdown series (values - running_max) / running_max. -/
def drawdowns (values : List Rat) : List Rat :=
  List.zipWith (fun v m => (v - m) / m) values (runningMax values)

/-- First index of the minimum of a list, the behaviour of np.argmin
(0 on an empty list, as a harmless default). -/
def argminIdx : List Rat → Nat
  | [] => 0
  | [_] => 0
  | x :: y :: rest =>
    let j := argminIdx (y :: rest)
    if x ≤ (y :: rest).getD j 0 then 0 else j + 1

/-- First index of the maximum of a list, the behaviour of np.argmax. -/
def argmaxIdx : List Rat → Nat
  | [] => 0
  | [_] => 0
  | x :: y :: rest =>
    let j := argmaxIdx (y :: rest)
    if (y :: rest).getD j 0 ≤ x then 0 else j + 1

/-- Result record of calculate_max_drawdown; the peak/trough dates are none in
the undersized case where the code returns None. -/
structure DrawdownResult where
  max_drawdown_pct : Rat
  peak_value : Rat
  trough_value : Rat
  peak_date : Option Int
  trough_date : Option Int
deriving DecidableEq

/-- Embedding of metrics.calculate_max_drawdown. -/
def calculate_max_drawdown (nav : List NavPoint) : DrawdownResult :=
  if nav.length < 2 then ⟨0, 0, 0, none, none⟩
  else
    let s := sortNavByDate nav
    let values := s.map NavPoint.value
    let dd := drawdowns values
    let max_dd_idx := argminIdx dd
    let max_drawdown := dd.getD max_dd_idx 0
    let peak_idx := if 0 < max_dd_idx then argmaxIdx (values.take (max_dd_idx + 1)) else 0
    ⟨max_drawdown * 100, values.getD peak_idx 0, values.getD max_dd_idx 0,
      (s[peak_idx]?).map NavPoint.date, (s[max_dd_idx]?).map NavPoint.date⟩

/-- Keys of a pandas groupby on an optional column: rows whose key is missing
(NaN) are dropped by groupby (dropna defaults to True), so only the present
keys appear. -/
def groupKeys (key : Holding → Option String) (rows : List Holding) : List String :=
  (rows.filterMap key).dedup

/-- Sum of valuation_current over the rows of one group. -/
def groupValue (key : Holding → Option String) (rows : List Holding) (k : String) : Rat :=
  ((rows.filter (fun r => key r == some k)).map Holding.valuation_current).sum

/-- Common shape of the three allocation functions of metrics.py: group the
rows by a key column, sum valuation_current per group, attach the percentage
(group / total * 100 when the total over the groups is positive, else 0) and
sort descending by value.  Each entry is (key, value, percentage). -/
def allocationBy (key : Holding → Option String) (rows : List Holding) :
    List (String × Rat × Rat) :=
  let raw := (groupKeys key rows).map (fun k => (k, groupValue key rows k))
  let total := (raw.map Prod.snd).sum
  let withPct := raw.map (fun p => (p.1, p.2, if 0 < total then p.2 / total * 100 else 0))
  List.insertionSort (fun a b => b.2.1 ≤ a.2.1) withPct

/-- Embedding of metrics.calculate_asset_allocation (groupby "asset_type"). -/
def calculate_asset_allocation (holdings : List Holding) : List (String × Rat × Rat) :=
  allocationBy (fun h => some h.asset_type) holdings

/-- Embedding of metrics.calculate_region_allocation (groupby "region"). -/
def calculate_region_allocation (holdings : List Holding) : List (String × Rat × Rat) :=
  allocationBy (fun h => some h.region) holdings

/-- Embedding of metrics.calculate_sector_allocation: restrict to rows with
asset_type == "Shares", then group by the optional sector column. -/
def calculate_sector_allocation (holdings : List Holding) : List (String × Rat × Rat) :=
  allocationBy Holding.sector (holdings.filter (fun h => h.asset_type == "Shares"))

/-- Output row of get_top_holdings.  The per-row unrealized_pnl_pct is the
float (valuation_current / valuation_cost_basis - 1) * 100 with no guard; a
zero cost basis makes the pandas float division non-finite (inf or NaN),
modelled as none. -/
structure TopHolding where
  asset_name : String
  asset_type : String
  region : String
  valuation_current : Rat
  valuation_cost_basis : Rat
  unrealized_pnl : Rat
  unrealized_pnl_pct : Option Rat
deriving DecidableEq

/-- Embedding of metrics.get_top_holdings. -/
def get_top_holdings (holdings : List Holding) (n : Nat) : List TopHolding :=
  (nlargestHoldings n holdings).map (fun h =>
    { asset_name := h.asset_name
      asset_type := h.asset_type
      region := h.region
      valuation_current := h.valuation_current
      valuation_cost_basis := h.valuation_cost_basis
      unrealized_pnl := h.valuation_current - h.valuation_cost_basis
      unrealized_pnl_pct :=
        if h.valuation_cost_basis = (0 : Rat) then none
        else some ((h.valuation_current / h.valuation_cost_basis - 1) * 100) })

/-- Embedding of metrics.calculate_concentration. -/
def calculate_concentration (holdings : List Holding) (top_n : Nat) : Rat :=
  if holdings.isEmpty then 0
  else
    let total := totalValuation holdings
    let top_values := totalValuation (nlargestHoldings top_n holdings)
    if 0 < total then top_values / total * 100 else 0

/-- The liquidity enum-to-number dictionary of calculate_liquidity_score
followed by fillna(0.5): Large, Moderate and Small map to 0.9, 0.5 and 0.2;
every other category and a missing value map to 0.5. -/
def liquidityMapValue (v : Option String) : Rat :=
  match v with
  | some s =>
    if s = "Large" then 9/10
    else if s = "Moderate" then 1/2
    else if s = "Small" then 1/5
    else 1/2
  | none => 1/2

/-- Embedding of metrics.calculate_liquidity_score.  The booleans record
whether the table has a "liquidity" column, whether that column has object
(string) dtype, and whether the table has a "liquidity_score" column —
the three schema tests the code performs. -/
def calculate_liquidity_score (holdings : List Holding)
    (hasLiquidityCol liquidityColIsObject hasScoreCol : Bool) : Rat :=
  if holdings.isEmpty then 0
  else
    let total_value := totalValuation holdings
    if total_value = 0 then 0
    else if hasLiquidityCol && liquidityColIsObject then
      (holdings.map (fun h => liquidityMapValue h.liquidity * h.valuation_current)).sum
        / total_value
    else if hasScoreCol then
      (holdings.map (fun h => h.liquidity_score * h.valuation_current)).sum / total_value
    else 1/2

/-- Embedding of metrics.downsample_nav.  The result is none exactly when the
Python code raises ZeroDivisionError, namely when the strided branch is
reached with max_points = 0. -/
def downsample_nav (nav : List NavPoint) (max_points : Nat) : Option (List NavPoint) :=
  if nav.isEmpty || nav.length ≤ max_points then some nav
  else if max_points = 0 then none
  else
    let step := nav.length / max_points
    let idxs := (List.range nav.length).filter (fun i => i % step == 0)
    let strided := idxs.filterMap (fun i => nav[i]?)
    some (if (nav.length - 1) % step == 0 then strided
          else strided ++ (nav.getLast?).toList)

/-- One account or type filter block of filters.py: Python truthiness makes
None and the empty string skip the filter, as does the sentinel "all";
otherwise the rows are restricted to those matching the value. -/
def applyStrFilter (get : α → String) (v : Option String) (df : List α) : List α :=
  match v with
  | some s => if s ≠ "" ∧ s ≠ "all" then df.filter (fun r => get r == s) else df
  | none => df

/-- One date-range filter block of filters.py: an inclusive lower bound and an
inclusive upper bound on the designated date column, each applied only when
present (Python truthiness of the tuple elements). -/
def applyDateFilter (get : α → Int) (dr : Option (Option Int × Option Int)) (df : List α) :
    List α :=
  match dr with
  | some (sd, ed) =>
    let df1 := match sd with
      | some d => df.filter (fun r => d ≤ get r)
      | none => df
    match ed with
    | some d => df1.filter (fun r => get r ≤ d)
    | none => df1
  | none => df

/-- Embedding of filters.filter_holdings: account filter, then asset type
filter, then date range on last_valuation_date. -/
def filter_holdings (holdings : List Holding) (account_id asset_type : Option String)
    (date_range : Option (Option Int × Option Int)) : List Holding :=
  applyDateFilter Holding.last_valuation_date date_range
    (applyStrFilter Holding.asset_type asset_type
      (applyStrFilter Holding.account_id account_id holdings))

/-- Embedding of filters.filter_transactions: account filter, then transaction
type filter, then date range on the date column. -/
def filter_transactions (transactions : List TransactionRow)
    (account_id tx_type : Option String)
    (date_range : Option (Option Int × Option Int)) : List TransactionRow :=
  applyDateFilter TransactionRow.date date_range
    (applyStrFilter TransactionRow.type tx_type
      (applyStrFilter TransactionRow.account_id account_id transactions))

/-- Value column chosen by filter_nav for one row: for a real account id the
per-account column value_<account_id> when that column exists, else the
total_value column; for None, "" or "all" always the total_value column. -/
def navValueColumn (nav : NavTable) (account_id : Option String) (r : NavTableRow) : Rat :=
  match account_id with
  | some a =>
    if a ≠ "" ∧ a ≠ "all" then
      if ("value_" ++ a) ∈ nav.columns then (r.account_values.lookup ("value_" ++ a)).getD 0
      else r.total_value
    else r.total_value
  | none => r.total_value

/-- Embedding of filters.filter_nav: date-range filter on the date column,
then projection to the (date, value) columns with the value column selected by
account. -/
def filter_nav (nav : NavTable) (account_id : Option String)
    (date_range : Option (Option Int × Option Int)) : List (Int × Rat) :=
  (applyDateFilter NavTableRow.date date_range nav.rows).map
    (fun r => (r.date, navValueColumn nav account_id r))

/-- Specification-side account or type predicate: what one filter block keeps. -/
def strPred (v : Option String) (s : String) : Bool :=
  match v with
  | some a => if a ≠ "" ∧ a ≠ "all" then s == a else true
  | none => true

/-- Specification-side date predicate: what the date-range block keeps. -/
def datePred (dr : Option (Option Int × Option Int)) (d : Int) : Bool :=
  match dr with
  | some (sd, ed) =>
    (match sd with | some x => decide (x ≤ d) | none => true)
      && (match ed with | some x => decide (d ≤ x) | none => true)
  | none => true

/-- Convenience builder for concrete holdings rows used in tests of the
theorems below; fields not under test get fixed neutral values. -/
def mkHolding (name ty : String) (sec : Option String) (v c : Rat) : Holding :=
  { asset_name := name, asset_type := ty, region := "EU", sector := sec,
    account_id := "a1", last_valuation_date := 0, valuation_current := v,
    valuation_cost_basis := c, liquidity := none, liquidity_score := 1/2 }

/-- Value series of a NAV frame after the date sort, the values array of
calculate_max_drawdown. -/
def navValues (nav : List NavPoint) : List Rat :=
  (sortNavByDate nav).map NavPoint.value

/-- Drawdown series of a NAV frame, the drawdowns array of
calculate_max_drawdown. -/
def navDrawdowns (nav : List NavPoint) : List Rat :=
  drawdowns (navValues nav)

/-- Index of the most negative drawdown, the max_dd_idx of
calculate_max_drawdown. -/
def troughIdx (nav : List NavPoint) : Nat :=
  argminIdx (navDrawdowns nav)

/-- Expected top-holdings row for the witness of claim C2. -/
def topRowA : TopHolding :=
  { asset_name := "A", asset_type := "Shares", region := "EU",
    valuation_current := 100, valuation_cost_basis := -100,
    unrealized_pnl := 200, unrealized_pnl_pct := some (-200) }

/-- Length of the accumulator form of the running maximum. -/
theorem runningMaxAux_length (m : Rat) (l : List Rat) :
    (runningMaxAux m l).length = l.length := by
  induction l generalizing m with
  | nil => rfl
  | cons x xs ih => simp [runningMaxAux, ih]

/-- The running maximum has the length of its input. -/
theorem runningMax_length (l : List Rat) : (runningMax l).length = l.length := by
  cases l with
  | nil => rfl
  | cons x xs => simp [runningMax, runningMaxAux_length]

/-- The drawdown series has the length of the value series. -/
theorem drawdowns_length (l : List Rat) : (drawdowns l).length = l.length := by
  simp [drawdowns, runningMax_length]

/-- On a value list that never decreases the running maximum is the list
itself (accumulator form). -/
theorem runningMaxAux_of_chain (m : Rat) (l : List Rat) (h : List.Chain (· ≤ ·) m l) :
    runningMaxAux m l = l := by
  induction l generalizing m with
  | nil => rfl
  | cons x xs ih =>
    rcases h with _ | ⟨hmx, hch⟩
    simp [runningMaxAux, max_eq_right hmx, ih x hch]

/-- On a nondecreasing value list the running maximum is the list itself. -/
theorem runningMax_of_chain (l : List Rat) (h : List.Chain' (· ≤ ·) l) :
    runningMax l = l := by
  cases l with
  | nil => rfl
  | cons x xs => simpa [runningMax] using runningMaxAux_of_chain x xs h

/-- Every drawdown of a nondecreasing value series is zero. -/
theorem drawdowns_of_chain (l : List Rat) (h : List.Chain' (· ≤ ·) l) :
    ∀ x ∈ drawdowns l, x = 0 := by
  intro x hx
  rw [drawdowns, runningMax_of_chain l h, List.zipWith_same] at hx
  rcases List.mem_map.1 hx with ⟨v, -, rfl⟩
  simp

/-- The index returned by argminIdx is in range on a nonempty list. -/
theorem argminIdx_lt_length : ∀ (l : List Rat), l ≠ [] → argminIdx l < l.length := by
  intro l
  induction l with
  | nil => simp
  | cons a t ih =>
    cases t with
    | nil => intro; simp [argminIdx]
    | cons b u =>
      intro
      rw [argminIdx]
      split
      · simp
      · have := ih (by simp)
        simpa using Nat.succ_lt_succ this

/-- The element argminIdx points at belongs to the list. -/
theorem argminIdx_getD_mem : ∀ (l : List Rat), l ≠ [] → l.getD (argminIdx l) 0 ∈ l := by
  intro l
  induction l with
  | nil => simp
  | cons a t ih =>
    cases t with
    | nil => intro; simp [argminIdx]
    | cons b u =>
      intro
      rw [argminIdx]
      split
      · simp
      · have := ih (by simp)
        simpa using Or.inr this

/-- The element argminIdx points at is a lower bound of the list. -/
theorem argminIdx_getD_le : ∀ (l : List Rat), ∀ x ∈ l, l.getD (argminIdx l) 0 ≤ x := by
  intro l
  induction l with
  | nil => simp
  | cons a t ih =>
    cases t with
    | nil =>
      intro x hx
      rcases List.mem_cons.1 hx with rfl | hx
      · simp [argminIdx]
      · simp at hx
    | cons b u =>
      intro x hx
      rw [argminIdx]
      split
      · rename_i hc
        rcases List.mem_cons.1 hx with rfl | hx
        · simp
        · simpa using le_trans hc (ih x hx)
      · rename_i hc
        rcases List.mem_cons.1 hx with rfl | hx
        · simpa using le_of_lt (lt_of_not_le hc)
        · simpa using ih x hx

/-- The index returned by argmaxIdx is in range on a nonempty list. -/
theorem argmaxIdx_lt_length : ∀ (l : List Rat), l ≠ [] → argmaxIdx l < l.length := by
  intro l
  induction l with
  | nil => simp
  | cons a t ih =>
    cases t with
    | nil => intro; simp [argmaxIdx]
    | cons b u =>
      intro
      rw [argmaxIdx]
      split
      · simp
      · have := ih (by simp)
        simpa using Nat.succ_lt_succ this

/-- The element argmaxIdx points at belongs to the list. -/
theorem argmaxIdx_getD_mem : ∀ (l : List Rat), l ≠ [] → l.getD (argmaxIdx l) 0 ∈ l := by
  intro l
  induction l with
  | nil => simp
  | cons a t ih =>
    cases t with
    | nil => intro; simp [argmaxIdx]
    | cons b u =>
      intro
      rw [argmaxIdx]
      split
      · simp
      · have := ih (by simp)
        simpa using Or.inr this

/-- The element argmaxIdx points at is an upper bound of the list. -/
theorem argmaxIdx_getD_ge : ∀ (l : List Rat), ∀ x ∈ l, x ≤ l.getD (argmaxIdx l) 0 := by
  intro l
  induction l with
  | nil => simp
  | cons a t ih =>
    cases t with
    | nil =>
      intro x hx
      rcases List.mem_cons.1 hx with rfl | hx
      · simp [argmaxIdx]
      · simp at hx
    | cons b u =>
      intro x hx
      rw [argmaxIdx]
      split
      · rename_i hc
        rcases List.mem_cons.1 hx with rfl | hx
        · simp
        · simpa using le_trans (ih x hx) hc
      · rename_i hc
        rcases List.mem_cons.1 hx with rfl | hx
        · simpa using le_of_lt (lt_of_not_le hc)
        · simpa using ih x hx

/-- Reading below the cut of a take is reading the original list. -/
theorem getD_take_of_lt (l : List Rat) (n m : Nat) (h : m < n) :
    (l.take n).getD m 0 = l.getD m 0 := by
  simp [List.getD_eq_getElem?_getD, List.getElem?_take_of_lt h]

/-- Unfolding of calculate_max_drawdown in the well-sized case. -/
theorem calculate_max_drawdown_eq (nav : List NavPoint) (h : 2 ≤ nav.length) :
    calculate_max_drawdown nav
      = ⟨(navDrawdowns nav).getD (troughIdx nav) 0 * 100,
         (navValues nav).getD
           (if 0 < troughIdx nav then argmaxIdx ((navValues nav).take (troughIdx nav + 1))
            else 0) 0,
         (navValues nav).getD (troughIdx nav) 0,
         ((sortNavByDate nav)[if 0 < troughIdx nav
             then argmaxIdx ((navValues nav).take (troughIdx nav + 1)) else 0]?).map
           NavPoint.date,
         ((sortNavByDate nav)[troughIdx nav]?).map NavPoint.date⟩ := by
  unfold calculate_max_drawdown
  rw [if_neg (by omega)]
  rfl

/-- Length bookkeeping: the drawdown series of a NAV frame is as long as the
frame. -/
theorem navDrawdowns_length (nav : List NavPoint) :
    (navDrawdowns nav).length = nav.length := by
  simp [navDrawdowns, navValues, drawdowns_length, sortNavByDate,
    (List.perm_insertionSort (fun p q => p.date ≤ q.date) nav).length_eq]

/-- Length bookkeeping: the value series of a NAV frame is as long as the
frame. -/
theorem navValues_length (nav : List NavPoint) :
    (navValues nav).length = nav.length := by
  simp [navValues, sortNavByDate,
    (List.perm_insertionSort (fun p q => p.date ≤ q.date) nav).length_eq]

/-- Membership of an in-range getD read. -/
theorem getD_mem_of_lt (l : List Rat) (n : Nat) (h : n < l.length) : l.getD n 0 ∈ l := by
  rw [List.getD_eq_getElem?_getD, List.getElem?_eq_getElem h]
  exact List.getElem_mem h

/-- Claim C3: for a NAV series of at least 2 points, calculate_max_drawdown
reports 100 times the minimum of (value - running_max) / running_max, the
trough value at the index achieving that minimum, and as peak the maximum of
the values up to and including the trough index; it reports 0 on every
nondecreasing positive series; on the series [100, 80, 120] it returns -20
percent with peak 100 at index 0 and trough 80 at index 1; with fewer than 2
points all numeric fields are 0 and both dates are none. -/
theorem max_drawdown_spec (nav : List NavPoint) :
    (nav.length < 2 → calculate_max_drawdown nav = ⟨0, 0, 0, none, none⟩)
    ∧ (2 ≤ nav.length →
        (calculate_max_drawdown nav).max_drawdown_pct
            = 100 * (navDrawdowns nav).getD (troughIdx nav) 0
          ∧ (navDrawdowns nav).getD (troughIdx nav) 0 ∈ navDrawdowns nav
          ∧ (∀ x ∈ navDrawdowns nav, (navDrawdowns nav).getD (troughIdx nav) 0 ≤ x)
          ∧ (calculate_max_drawdown nav).trough_value ∈ navValues nav
          ∧ (calculate_max_drawdown nav).peak_value ∈ (navValues nav).take (troughIdx nav + 1)
          ∧ (∀ x ∈ (navValues nav).take (troughIdx nav + 1),
              x ≤ (calculate_max_drawdown nav).peak_value))
    ∧ (List.Chain' (· ≤ ·) (navValues nav) → (∀ v ∈ navValues nav, 0 < v) →
        (calculate_max_drawdown nav).max_drawdown_pct = 0)
    ∧ calculate_max_drawdown [⟨0, 100⟩, ⟨1, 80⟩, ⟨2, 120⟩] = ⟨-20, 100, 80, some 0, some 1⟩ := by
  have hineq : ∀ h2 : 2 ≤ nav.length, navDrawdowns nav ≠ [] := by
    intro h2
    have := navDrawdowns_length nav
    intro hc
    rw [hc] at this
    simp at this
    omega
  refine ⟨?_, ?_, ?_, ?_⟩
  · intro h
    simp [calculate_max_drawdown, h]
  · intro h2
    have hdd := hineq h2
    have hti : troughIdx nav < (navDrawdowns nav).length := argminIdx_lt_length _ hdd
    have htiv : troughIdx nav < (navValues nav).length := by
      rw [navValues_length]
      rw [navDrawdowns_length] at hti
      exact hti
    rw [calculate_max_drawdown_eq nav h2]
    refine ⟨by simp [mul_comm], argminIdx_getD_mem _ hdd, argminIdx_getD_le _, ?_, ?_, ?_⟩
    · exact getD_mem_of_lt _ _ htiv
    · rcases Nat.eq_zero_or_pos (troughIdx nav) with hti0 | hc
      · rw [hti0]
        rw [if_neg (lt_irrefl 0)]
        rcases hv : navValues nav with _ | ⟨v, rest⟩
        · exfalso
          have hl := navValues_length nav
          rw [hv] at hl
          simp at hl
          omega
        · simp
      · rw [if_pos hc]
        have htne : (navValues nav).take (troughIdx nav + 1) ≠ [] :=
          List.ne_nil_of_length_pos (by rw [List.length_take]; omega)
        have hbound := argmaxIdx_lt_length _ htne
        have hlt : argmaxIdx ((navValues nav).take (troughIdx nav + 1)) < troughIdx nav + 1 := by
          rw [List.length_take] at hbound
          omega
        show (navValues nav).getD (argmaxIdx ((navValues nav).take (troughIdx nav + 1))) 0
            ∈ (navValues nav).take (troughIdx nav + 1)
        rw [← getD_take_of_lt (navValues nav) (troughIdx nav + 1) _ hlt]
        exact argmaxIdx_getD_mem _ htne
    · intro x hx
      rcases Nat.eq_zero_or_pos (troughIdx nav) with hti0 | hc
      · rw [hti0] at hx ⊢
        rw [if_neg (lt_irrefl 0)]
        rcases hv : navValues nav with _ | ⟨v, rest⟩
        · rw [hv] at hx
          simp at hx
        · rw [hv] at hx
          simp at hx
          simp [hx]
      · rw [if_pos hc]
        have htne : (navValues nav).take (troughIdx nav + 1) ≠ [] :=
          List.ne_nil_of_length_pos (by rw [List.length_take]; omega)
        have hbound := argmaxIdx_lt_length _ htne
        have hlt : argmaxIdx ((navValues nav).take (troughIdx nav + 1)) < troughIdx nav + 1 := by
          rw [List.length_take] at hbound
          omega
        show x ≤ (navValues nav).getD (argmaxIdx ((navValues nav).take (troughIdx nav + 1))) 0
        rw [← getD_take_of_lt (navValues nav) (troughIdx nav + 1) _ hlt]
        exact argmaxIdx_getD_ge _ x hx
  · intro hch _hpos
    by_cases hlen : nav.length < 2
    · simp [calculate_max_drawdown, hlen]
    · have h2 : 2 ≤ nav.length := by omega
      rw [calculate_max_drawdown_eq nav h2]
      have hz : ∀ x ∈ navDrawdowns nav, x = 0 := drawdowns_of_chain _ hch
      have h0 : (navDrawdowns nav).getD (troughIdx nav) 0 = 0 :=
        hz _ (argminIdx_getD_mem _ (hineq h2))
      show (navDrawdowns nav).getD (troughIdx nav) 0 * 100 = 0
      rw [h0, zero_mul]
  · norm_num [calculate_max_drawdown, sortNavByDate, List.insertionSort, List.orderedInsert,
      drawdowns, runningMax, runningMaxAux, argminIdx, argmaxIdx]

/-- Witness for claim C3: the undersized branch at a one-point series, the
zero drawdown on a rising series, and the trough membership on a concrete
series, all through max_drawdown_spec. -/
theorem max_drawdown_spec_witness :
    calculate_max_drawdown [⟨0, 100⟩] = ⟨0, 0, 0, none, none⟩
    ∧ (calculate_max_drawdown [⟨0, 100⟩, ⟨1, 110⟩, ⟨2, 120⟩]).max_drawdown_pct = 0
    ∧ (calculate_max_drawdown [⟨0, 100⟩, ⟨1, 80⟩, ⟨2, 120⟩]).trough_value
        ∈ navValues [⟨0, 100⟩, ⟨1, 80⟩, ⟨2, 120⟩] := by
  refine ⟨(max_drawdown_spec [⟨0, 100⟩]).1 (by norm_num),
          (max_drawdown_spec [⟨0, 100⟩, ⟨1, 110⟩, ⟨2, 120⟩]).2.2.1 ?_ ?_,
          ((max_drawdown_spec [⟨0, 100⟩, ⟨1, 80⟩, ⟨2, 120⟩]).2.1 (by norm_num)).2.2.2.1⟩
  · norm_num [navValues, sortNavByDate, List.insertionSort, List.orderedInsert]
  · intro v hv
    norm_num [navValues, sortNavByDate, List.insertionSort, List.orderedInsert] at hv
    rcases hv with rfl | rfl | rfl <;> norm_num

/-- The length of the date-sorted NAV frame. -/
theorem sortNavByDate_length (nav : List NavPoint) :
    (sortNavByDate nav).length = nav.length := by
  unfold sortNavByDate
  exact (List.perm_insertionSort _ nav).length_eq

/-- Membership transfers between a NAV frame and its date sort. -/
theorem mem_sortNavByDate {p : NavPoint} {nav : List NavPoint} :
    p ∈ sortNavByDate nav ↔ p ∈ nav := by
  unfold sortNavByDate
  exact (List.perm_insertionSort _ nav).mem_iff

/-- The date-sorted NAV frame is pairwise nondecreasing in dates. -/
theorem sortNavByDate_pairwise (nav : List NavPoint) :
    List.Pairwise (fun p q => p.date ≤ q.date) (sortNavByDate nav) := by
  haveI : IsTotal NavPoint (fun p q => p.date ≤ q.date) := ⟨fun a b => Int.le_total a.date b.date⟩
  haveI : IsTrans NavPoint (fun p q => p.date ≤ q.date) :=
    ⟨fun a b c h1 h2 => Int.le_trans h1 h2⟩
  exact List.sorted_insertionSort _ nav

/-- In a date-pairwise list every element dates at or before the last one. -/
theorem pairwise_date_le_getLast :
    ∀ (l : List NavPoint), List.Pairwise (fun p q => p.date ≤ q.date) l →
      ∀ e, l.getLast? = some e → ∀ p ∈ l, p.date ≤ e.date := by
  intro l
  induction l with
  | nil => intro _ e he; simp at he
  | cons a t ih =>
    intro h e he p hp
    rcases List.pairwise_cons.1 h with ⟨ha, ht⟩
    cases t with
    | nil =>
      simp at he hp
      rw [hp, ← he]
    | cons b u =>
      rw [List.getLast?_cons_cons] at he
      rcases List.mem_cons.1 hp with rfl | hp2
      · exact ha e (List.mem_of_mem_getLast? (Option.mem_def.mpr he))
      · exact ih ht e he p hp2

/-- In a date-pairwise list the head dates at or before every element. -/
theorem pairwise_head_date_le (l : List NavPoint)
    (h : List.Pairwise (fun p q => p.date ≤ q.date) l) :
    ∀ st, l.head? = some st → ∀ p ∈ l, st.date ≤ p.date := by
  cases l with
  | nil => intro st hst; simp at hst
  | cons a t =>
    intro st hst p hp
    simp at hst
    rcases List.mem_cons.1 hp with rfl | hp2
    · rw [hst]
    · rw [← hst]
      exact (List.pairwise_cons.1 h).1 p hp2

/-- Claim C6: for a NAV series with fewer than 2 points
calculate_returns_from_nav yields all zeros; with at least 2 points the end
point is the last point of the date-ascending sort and dates no earlier than
every point, if no point passes the window filter the start falls back to the
earliest point, and return_pct is (end/start - 1)*100 when start is positive,
else 0. -/
theorem returns_from_nav_spec (nav : List NavPoint) (w : Int) :
    (nav.length < 2 → calculate_returns_from_nav nav w = ⟨0, 0, 0, 0⟩)
    ∧ (2 ≤ nav.length →
        ∃ e, (sortNavByDate nav).getLast? = some e
          ∧ (calculate_returns_from_nav nav w).end_value = e.value
          ∧ (∀ p ∈ nav, p.date ≤ e.date)
          ∧ (((sortNavByDate nav).filter (fun p => e.date - w ≤ p.date)).isEmpty = true →
              ∃ st, (sortNavByDate nav).head? = some st
                ∧ (calculate_returns_from_nav nav w).start_value = st.value
                ∧ ∀ p ∈ nav, st.date ≤ p.date)
          ∧ (calculate_returns_from_nav nav w).return_pct
              = if 0 < (calculate_returns_from_nav nav w).start_value
                then ((calculate_returns_from_nav nav w).end_value
                    / (calculate_returns_from_nav nav w).start_value - 1) * 100
                else 0) := by
  constructor
  · intro h
    simp [calculate_returns_from_nav, h]
  · intro h2
    have hnot : ¬ nav.length < 2 := by omega
    have hslen : 0 < (sortNavByDate nav).length := by rw [sortNavByDate_length]; omega
    obtain ⟨e, hgl⟩ : ∃ e, (sortNavByDate nav).getLast? = some e := by
      cases hq : (sortNavByDate nav).getLast? with
      | none =>
        rw [List.getLast?_eq_none_iff] at hq
        rw [hq] at hslen
        simp at hslen
      | some e => exact ⟨e, rfl⟩
    refine ⟨e, hgl, ?_, ?_, ?_, ?_⟩
    · simp only [calculate_returns_from_nav, if_neg hnot]
      rw [hgl]
      rfl
    · intro p hp
      exact pairwise_date_le_getLast _ (sortNavByDate_pairwise nav) e hgl p
        (mem_sortNavByDate.2 hp)
    · intro hEmpty
      obtain ⟨st, hh⟩ : ∃ st, (sortNavByDate nav).head? = some st := by
        cases hq : (sortNavByDate nav).head? with
        | none =>
          rw [List.head?_eq_none_iff] at hq
          rw [hq] at hslen
          simp at hslen
        | some st => exact ⟨st, rfl⟩
      refine ⟨st, hh, ?_, ?_⟩
      · simp only [calculate_returns_from_nav, if_neg hnot]
        rw [hgl]
        simp only [Option.map_some', Option.getD_some]
        rw [if_pos hEmpty, hh]
        rfl
      · intro p hp
        exact pairwise_head_date_le _ (sortNavByDate_pairwise nav) st hh p
          (mem_sortNavByDate.2 hp)
    · simp only [calculate_returns_from_nav, if_neg hnot]

/-- Witness for claim C6: the undersized branch on an empty series, and the
fallback to the earliest point on a two-point series with a negative window
(the only way the window filter can be empty), through returns_from_nav_spec. -/
theorem returns_from_nav_spec_witness :
    calculate_returns_from_nav [] 365 = ⟨0, 0, 0, 0⟩
    ∧ (calculate_returns_from_nav [⟨0, 100⟩, ⟨10, 110⟩] (-5)).start_value = 100 := by
  constructor
  · exact (returns_from_nav_spec [] 365).1 (by norm_num)
  · obtain ⟨e, hgl, -, -, hfb, -⟩ :=
      (returns_from_nav_spec [⟨0, 100⟩, ⟨10, 110⟩] (-5)).2 (by norm_num)
    have hq : (sortNavByDate [⟨0, 100⟩, ⟨10, 110⟩]).getLast? = some ⟨10, 110⟩ := by
      norm_num [sortNavByDate, List.insertionSort, List.orderedInsert]
    rw [hq] at hgl
    have he : e = ⟨10, 110⟩ := (Option.some.inj hgl).symm
    subst he
    obtain ⟨st, hsh, hsv, -⟩ :=
      hfb (by norm_num [sortNavByDate, List.insertionSort, List.orderedInsert, List.filter])
    have hq2 : (sortNavByDate [⟨0, 100⟩, ⟨10, 110⟩]).head? = some ⟨0, 100⟩ := by
      norm_num [sortNavByDate, List.insertionSort, List.orderedInsert]
    rw [hq2] at hsh
    have hst : st = ⟨0, 100⟩ := (Option.some.inj hsh).symm
    rw [hsv, hst]

/-- A filterMap by a some-composed function is a plain map; with the key
always present a groupby drops nothing. -/
theorem filterMap_some_comp (f : Holding → String) (l : List Holding) :
    l.filterMap (fun x => some (f x)) = l.map f := by
  induction l with
  | nil => rfl
  | cons a t ih => simp [List.filterMap_cons, ih]

/-- Summing an indicator of a single key over a duplicate-free key list picks
out that key exactly once. -/
theorem sum_map_ite_eq_single (ks : List String) (k0 : String) (c : Rat)
    (hnd : ks.Nodup) (hmem : k0 ∈ ks) :
    (ks.map (fun k => if k0 = k then c else 0)).sum = c := by
  induction ks with
  | nil => simp at hmem
  | cons a t ih =>
    rcases List.nodup_cons.1 hnd with ⟨ha, ht⟩
    rcases List.mem_cons.1 hmem with rfl | hm
    · simp only [List.map_cons, List.sum_cons, if_pos rfl]
      have hz : (t.map (fun k => if k0 = k then c else 0)).sum = 0 := by
        apply List.sum_eq_zero
        intro x hx
        rcases List.mem_map.1 hx with ⟨k, hk, rfl⟩
        rw [if_neg]
        intro hc
        exact ha (hc ▸ hk)
      rw [hz, add_zero]
      simp
    · have hne : k0 ≠ a := by
        rintro rfl
        exact ha hm
      simp only [List.map_cons, List.sum_cons, if_neg hne]
      rw [ih ht hm, zero_add]

/-- Group sum over a cons of rows. -/
theorem groupValue_cons (key : Holding → Option String) (r : Holding) (rows : List Holding)
    (k : String) :
    groupValue key (r :: rows) k
      = (if key r = some k then r.valuation_current else 0) + groupValue key rows k := by
  by_cases hc : key r = some k
  · simp [groupValue, List.filter_cons, hc]
  · simp [groupValue, List.filter_cons, hc]

/-- The group sums over a duplicate-free key list covering every row
partition the total valuation. -/
theorem sum_groupValue (key : Holding → Option String) (ks : List String) (hnd : ks.Nodup) :
    ∀ rows : List Holding, (∀ r ∈ rows, ∃ k ∈ ks, key r = some k) →
      (ks.map (fun k => groupValue key rows k)).sum
        = (rows.map Holding.valuation_current).sum := by
  intro rows
  induction rows with
  | nil =>
    intro
    simp only [List.map_nil, List.sum_nil]
    apply List.sum_eq_zero
    intro x hx
    rcases List.mem_map.1 hx with ⟨k, -, rfl⟩
    rfl
  | cons r rest ih =>
    intro hcov
    obtain ⟨k0, hk0, hkey⟩ := hcov r (List.mem_cons_self r rest)
    have h1 : (ks.map (fun k => groupValue key (r :: rest) k)).sum
        = (ks.map (fun k => (if key r = some k then r.valuation_current else 0)
            + groupValue key rest k)).sum := by
      congr 1
      exact List.map_congr_left (fun k _ => groupValue_cons key r rest k)
    have h2 : (ks.map (fun k => (if key r = some k then r.valuation_current else 0)
          + groupValue key rest k)).sum
        = (ks.map (fun k => if key r = some k then r.valuation_current else 0)).sum
          + (ks.map (fun k => groupValue key rest k)).sum := List.sum_map_add
    have h3 : (ks.map (fun k => if key r = some k then r.valuation_current else 0)).sum
        = r.valuation_current := by
      have hpt : ∀ k ∈ ks, (if key r = some k then r.valuation_current else 0)
          = (if k0 = k then r.valuation_current else 0) := by
        intro k _
        by_cases hc : k0 = k
        · rw [if_pos (hc ▸ hkey), if_pos hc]
        · rw [if_neg, if_neg hc]
          rw [hkey]
          intro hsome
          exact hc (Option.some.inj hsome)
      rw [List.map_congr_left hpt]
      exact sum_map_ite_eq_single ks k0 _ hnd hk0
    rw [h1, h2, h3, ih (fun x hx => hcov x (List.mem_cons_of_mem r hx))]
    simp

/-- Sorting the allocation rows by value leaves the percentage sum alone. -/
theorem sum_map_insertionSort_pct (l : List (String × Rat × Rat)) :
    ((List.insertionSort (fun a b => b.2.1 ≤ a.2.1) l).map (fun t => t.2.2)).sum
      = (l.map (fun t => t.2.2)).sum :=
  ((List.perm_insertionSort _ l).map (fun t => t.2.2)).sum_eq

/-- The per-group values of a total-function key sum to the total valuation. -/
theorem groupTotal_eq (f : Holding → String) (rows : List Holding) :
    (((groupKeys (fun x => some (f x)) rows).map
        (fun k => (k, groupValue (fun x => some (f x)) rows k))).map Prod.snd).sum
      = (rows.map Holding.valuation_current).sum := by
  rw [List.map_map]
  have hcomp : Prod.snd ∘ (fun k => (k, groupValue (fun x => some (f x)) rows k))
      = fun k => groupValue (fun x => some (f x)) rows k := rfl
  rw [hcomp]
  apply sum_groupValue
  · exact List.nodup_dedup _
  · intro r hr
    refine ⟨f r, ?_, rfl⟩
    rw [groupKeys, filterMap_some_comp]
    exact List.mem_dedup.2 (List.mem_map_of_mem f hr)

/-- Percentages of an allocation by a total-function key sum to 100 when the
total valuation is positive. -/
theorem allocationBy_pct_sum (f : Holding → String) (rows : List Holding)
    (h : 0 < (rows.map Holding.valuation_current).sum) :
    ((allocationBy (fun x => some (f x)) rows).map (fun t => t.2.2)).sum = 100 := by
  simp only [allocationBy]
  rw [sum_map_insertionSort_pct, List.map_map]
  have hcomp : ((fun t : String × Rat × Rat => t.2.2)
        ∘ (fun p : String × Rat => (p.1, p.2,
            if 0 < (((groupKeys (fun x => some (f x)) rows).map
                (fun k => (k, groupValue (fun x => some (f x)) rows k))).map Prod.snd).sum
            then p.2 / (((groupKeys (fun x => some (f x)) rows).map
                (fun k => (k, groupValue (fun x => some (f x)) rows k))).map Prod.snd).sum * 100
            else 0)))
      = fun p : String × Rat =>
          if 0 < (((groupKeys (fun x => some (f x)) rows).map
              (fun k => (k, groupValue (fun x => some (f x)) rows k))).map Prod.snd).sum
          then p.2 / (((groupKeys (fun x => some (f x)) rows).map
              (fun k => (k, groupValue (fun x => some (f x)) rows k))).map Prod.snd).sum * 100
          else 0 := rfl
  rw [hcomp]
  rw [groupTotal_eq f rows]
  simp only [if_pos h]
  simp only [div_eq_mul_inv, mul_assoc]
  rw [List.sum_map_mul_right]
  have h2 : (((groupKeys (fun x => some (f x)) rows).map
        (fun k => (k, groupValue (fun x => some (f x)) rows k))).map
          (fun p : String × Rat => p.2)).sum
      = (rows.map Holding.valuation_current).sum := groupTotal_eq f rows
  rw [h2, ← mul_assoc, mul_inv_cancel₀ (ne_of_gt h), one_mul]

/-- Claim C5: for every holdings table the percentage column of the asset and
region allocation breakdowns sums to exactly 100 whenever the total value is
positive, and both breakdowns are empty (percentage sum 0) on the empty
table. -/
theorem allocation_pct_sum_spec (holdings : List Holding) :
    (holdings = [] → calculate_asset_allocation holdings = []
        ∧ calculate_region_allocation holdings = [])
    ∧ (0 < totalValuation holdings →
        ((calculate_asset_allocation holdings).map (fun t => t.2.2)).sum = 100
        ∧ ((calculate_region_allocation holdings).map (fun t => t.2.2)).sum = 100) := by
  constructor
  · rintro rfl
    exact ⟨rfl, rfl⟩
  · intro h
    exact ⟨allocationBy_pct_sum (fun x => x.asset_type) holdings h,
           allocationBy_pct_sum (fun x => x.region) holdings h⟩

/-- Witness for claim C5: a concrete two-row table with positive total whose
allocation percentages sum to 100, and the empty table, through
allocation_pct_sum_spec. -/
theorem allocation_pct_sum_spec_witness :
    calculate_asset_allocation [] = []
    ∧ ((calculate_asset_allocation
          [mkHolding "A" "Shares" none 60 1, mkHolding "B" "Liquid" none 40 1]).map
        (fun t => t.2.2)).sum = 100 := by
  refine ⟨((allocation_pct_sum_spec []).1 rfl).1, ?_⟩
  exact ((allocation_pct_sum_spec
      [mkHolding "A" "Shares" none 60 1, mkHolding "B" "Liquid" none 40 1]).2
    (by norm_num [totalValuation, mkHolding])).1

/-- Rows with a missing group key contribute nothing to the keys of a
groupby. -/
theorem filterMap_filter_isSome (key : Holding → Option String) (rows : List Holding) :
    (rows.filter (fun r => (key r).isSome)).filterMap key = rows.filterMap key := by
  induction rows with
  | nil => rfl
  | cons r rest ih =>
    cases hk : key r with
    | none => simp [List.filter_cons, List.filterMap_cons, hk, ih]
    | some s => simp [List.filter_cons, List.filterMap_cons, hk, ih]

/-- Rows with a missing group key contribute nothing to any group sum. -/
theorem groupValue_filter_isSome (key : Holding → Option String) (rows : List Holding)
    (k : String) :
    groupValue key (rows.filter (fun r => (key r).isSome)) k = groupValue key rows k := by
  unfold groupValue
  rw [List.filter_filter]
  have hfe : List.filter (fun a => key a == some k && (key a).isSome) rows
      = List.filter (fun r => key r == some k) rows := by
    apply List.filter_congr
    intro r _
    cases hk : key r <;> simp [hk]
  rw [hfe]

/-- Rows with a missing group key are invisible to the whole allocation. -/
theorem allocationBy_filter_isSome (key : Holding → Option String) (rows : List Holding) :
    allocationBy key (rows.filter (fun r => (key r).isSome)) = allocationBy key rows := by
  have hgv : ∀ k, groupValue key (rows.filter (fun r => (key r).isSome)) k
      = groupValue key rows k := groupValue_filter_isSome key rows
  simp only [allocationBy, groupKeys, filterMap_filter_isSome, hgv]

/-- Claim C1 amended: the sector allocation first restricts to rows with
asset_type == Shares, and a Shares holding whose sector is missing is then
dropped entirely by the groupby (pandas dropna) — the breakdown on the whole
table equals the one computed only from Shares rows with a present sector. -/
theorem sector_allocation_amended (holdings : List Holding) :
    calculate_sector_allocation holdings
      = calculate_sector_allocation
          (holdings.filter (fun h => h.asset_type == "Shares" && h.sector.isSome)) := by
  unfold calculate_sector_allocation
  rw [List.filter_filter]
  have hpred : ∀ h ∈ holdings,
      (h.asset_type == "Shares" && (h.asset_type == "Shares" && h.sector.isSome))
        = (h.asset_type == "Shares" && h.sector.isSome) := by
    intro h _
    cases h.asset_type == "Shares" <;> simp
  rw [List.filter_congr hpred]
  rw [← allocationBy_filter_isSome Holding.sector
      (holdings.filter (fun h => h.asset_type == "Shares"))]
  congr 1
  rw [List.filter_filter]
  apply List.filter_congr
  intro h _
  cases h.asset_type == "Shares" <;> cases hs : h.sector <;> simp [hs]

/-- Counterexample to claim C1: a Shares holding with a missing sector is not
grouped under a null bucket — the sector allocation of a table holding only
that row is empty, although the table has exactly one Shares row (with
valuation 100).  pandas groupby drops null keys instead of bucketing them. -/
theorem sector_allocation_cex :
    calculate_sector_allocation [mkHolding "A" "Shares" none 100 50] = []
    ∧ ([mkHolding "A" "Shares" none 100 50].filter
        (fun h => h.asset_type == "Shares")).length = 1 := by
  constructor
  · rfl
  · rfl

/-- Prefix sums of a list of nonnegative numbers grow with the prefix
length. -/
theorem sum_take_mono (l : List Rat) (hnn : ∀ x ∈ l, 0 ≤ x) {m n : Nat} (hmn : m ≤ n) :
    (l.take m).sum ≤ (l.take n).sum := by
  have h1 : l.take n = l.take m ++ (l.take n).drop m := by
    conv_lhs => rw [← List.take_append_drop m (l.take n)]
    rw [List.take_take, Nat.min_eq_left hmn]
  rw [h1, List.sum_append]
  have h2 : 0 ≤ ((l.take n).drop m).sum := by
    apply List.sum_nonneg
    intro x hx
    exact hnn x (List.mem_of_mem_take (List.mem_of_mem_drop hx))
  linarith

/-- Unfolding of calculate_concentration on a nonempty table with positive
total. -/
theorem calculate_concentration_eq (holdings : List Holding) (n : Nat)
    (hne : holdings ≠ []) (hpos : 0 < totalValuation holdings) :
    calculate_concentration holdings n
      = totalValuation (nlargestHoldings n holdings) / totalValuation holdings * 100 := by
  simp only [calculate_concentration]
  rw [if_neg (by simpa using hne), if_pos hpos]

/-- Claim C4 amended: on a holdings table whose valuations are all
nonnegative and whose total value is positive, the concentration metric is
monotone in the number of top holdings, and reaches exactly 100 as soon as
that number covers the whole table.  (Without the nonnegativity restriction
the claim fails, see the counterexample.) -/
theorem concentration_amended (holdings : List Holding) (m n : Nat) (hmn : m ≤ n)
    (hnn : ∀ h ∈ holdings, 0 ≤ h.valuation_current)
    (hpos : 0 < totalValuation holdings) :
    calculate_concentration holdings m ≤ calculate_concentration holdings n
    ∧ (holdings.length ≤ n → calculate_concentration holdings n = 100) := by
  have hne : holdings ≠ [] := by
    rintro rfl
    simp [totalValuation] at hpos
  set L := List.insertionSort (fun a b => b.valuation_current ≤ a.valuation_current) holdings
    with hL
  have hperm : L.Perm holdings := List.perm_insertionSort _ holdings
  have htop : ∀ k, totalValuation (nlargestHoldings k holdings)
      = ((L.map Holding.valuation_current).take k).sum := by
    intro k
    rw [nlargestHoldings, totalValuation, ← hL, ← List.map_take]
  have hvnn : ∀ x ∈ L.map Holding.valuation_current, 0 ≤ x := by
    intro x hx
    rcases List.mem_map.1 hx with ⟨h, hh, rfl⟩
    exact hnn h (hperm.subset hh)
  constructor
  · rw [calculate_concentration_eq holdings m hne hpos,
      calculate_concentration_eq holdings n hne hpos, htop m, htop n]
    have hmono := sum_take_mono (L.map Holding.valuation_current) hvnn hmn
    gcongr
  · intro hlen
    rw [calculate_concentration_eq holdings n hne hpos]
    have hall : nlargestHoldings n holdings = L := by
      rw [nlargestHoldings, ← hL]
      apply List.take_of_length_le
      rw [hperm.length_eq]
      exact hlen
    rw [hall]
    have htv : totalValuation L = totalValuation holdings :=
      (hperm.map Holding.valuation_current).sum_eq
    rw [htv, div_self (ne_of_gt hpos), one_mul]

/-- Counterexample to claim C4: with a negative valuation in the table the
concentration metric is not monotone — on [100, -50] the top-1 concentration
is 200 percent while the top-2 concentration is 100 percent, so m = 1 ≤ n = 2
violates concentration(m) ≤ concentration(n). -/
theorem concentration_cex :
    ¬ (calculate_concentration
          [mkHolding "A" "Shares" none 100 50, mkHolding "B" "Shares" none (-50) 10] 1
        ≤ calculate_concentration
          [mkHolding "A" "Shares" none 100 50, mkHolding "B" "Shares" none (-50) 10] 2) := by
  norm_num [calculate_concentration, totalValuation, nlargestHoldings, List.insertionSort,
    List.orderedInsert, mkHolding]

/-- Witness for claim C4 as amended, at a concrete nonnegative table through
concentration_amended. -/
theorem concentration_amended_witness :
    calculate_concentration
        [mkHolding "A" "Shares" none 60 1, mkHolding "B" "Liquid" none 40 1] 1
      ≤ calculate_concentration
        [mkHolding "A" "Shares" none 60 1, mkHolding "B" "Liquid" none 40 1] 2
    ∧ calculate_concentration
        [mkHolding "A" "Shares" none 60 1, mkHolding "B" "Liquid" none 40 1] 2 = 100 := by
  obtain ⟨h1, h2⟩ := concentration_amended
    [mkHolding "A" "Shares" none 60 1, mkHolding "B" "Liquid" none 40 1] 1 2
    (by norm_num)
    (by
      intro h hh
      simp only [List.mem_cons, List.mem_singleton] at hh
      rcases hh with rfl | rfl | hh
      · norm_num [mkHolding]
      · norm_num [mkHolding]
      · simp at hh)
    (by norm_num [totalValuation, mkHolding])
  exact ⟨h1, h2 (by norm_num)⟩

/-- Claim C2 amended: each row of get_top_holdings carries the unguarded
formula — unrealized_pnl is current minus cost, and the percentage is the raw
(current / cost - 1) * 100 float whenever the cost basis is nonzero (even
negative), while a zero cost basis makes it a non-finite float (none), never
a substituted 0. -/
theorem top_holdings_pnl_amended (holdings : List Holding) (n : Nat) :
    ∀ t ∈ get_top_holdings holdings n,
      t.unrealized_pnl = t.valuation_current - t.valuation_cost_basis
      ∧ (t.valuation_cost_basis ≠ 0 →
          t.unrealized_pnl_pct
            = some ((t.valuation_current / t.valuation_cost_basis - 1) * 100))
      ∧ (t.valuation_cost_basis = 0 → t.unrealized_pnl_pct = none) := by
  intro t ht
  rcases List.mem_map.1 ht with ⟨h, -, rfl⟩
  refine ⟨rfl, ?_, ?_⟩
  · intro hc
    exact if_neg hc
  · intro hc
    exact if_pos hc

/-- Counterexample to claim C2: a top holding with cost basis -100 (not
positive) gets unrealized_pnl_pct -200, not the 0 the claim promises. -/
theorem top_holdings_pct_cex :
    (get_top_holdings [mkHolding "A" "Shares" none 100 (-100)] 1).map
        TopHolding.unrealized_pnl_pct = [some (-200)]
    ∧ (some (-200) : Option Rat) ≠ some 0 := by
  constructor
  · norm_num [get_top_holdings, nlargestHoldings, List.insertionSort, List.orderedInsert,
      mkHolding]
  · norm_num

/-- Witness for claim C2 as amended, at a concrete negative-cost row through
top_holdings_pnl_amended. -/
theorem top_holdings_pnl_amended_witness :
    ∃ t ∈ get_top_holdings [mkHolding "A" "Shares" none 100 (-100)] 1,
      t.unrealized_pnl = t.valuation_current - t.valuation_cost_basis
      ∧ t.unrealized_pnl_pct
          = some ((t.valuation_current / t.valuation_cost_basis - 1) * 100) := by
  have hl : get_top_holdings [mkHolding "A" "Shares" none 100 (-100)] 1 = [topRowA] := by
    norm_num [get_top_holdings, nlargestHoldings, List.insertionSort, List.orderedInsert,
      mkHolding, topRowA]
  have hmem : topRowA ∈ get_top_holdings [mkHolding "A" "Shares" none 100 (-100)] 1 := by
    rw [hl]
    exact List.mem_singleton_self _
  have h := top_holdings_pnl_amended [mkHolding "A" "Shares" none 100 (-100)] 1 _ hmem
  exact ⟨_, hmem, h.1, h.2.1 (by norm_num [topRowA])⟩

/-- Claim C7 amended: on a table with nonzero total value,
calculate_liquidity_score resolves a categorical liquidity column (object
dtype) through the mapping Large 0.9 / Moderate 0.5 / Small 0.2 with unknown
or missing categories defaulting to 0.5, value-weighted by valuation_current;
otherwise it falls back to the numeric liquidity_score column weighted the
same way; with neither column it returns the constant 0.5.  (On an empty or
zero-total table the code returns 0 instead, see the counterexample.) -/
theorem liquidity_score_amended (holdings : List Holding) (hl ho hs : Bool)
    (hTot : totalValuation holdings ≠ 0) :
    (hl = true → ho = true →
        calculate_liquidity_score holdings hl ho hs
          = (holdings.map (fun h => liquidityMapValue h.liquidity * h.valuation_current)).sum
              / totalValuation holdings)
    ∧ ((hl && ho) = false → hs = true →
        calculate_liquidity_score holdings hl ho hs
          = (holdings.map (fun h => h.liquidity_score * h.valuation_current)).sum
              / totalValuation holdings)
    ∧ ((hl && ho) = false → hs = false →
        calculate_liquidity_score holdings hl ho hs = 1/2)
    ∧ liquidityMapValue (some "Large") = 9/10
    ∧ liquidityMapValue (some "Moderate") = 1/2
    ∧ liquidityMapValue (some "Small") = 1/5
    ∧ liquidityMapValue none = 1/2
    ∧ (∀ s : String, s ≠ "Large" → s ≠ "Moderate" → s ≠ "Small" →
        liquidityMapValue (some s) = 1/2) := by
  have hne : holdings ≠ [] := by
    rintro rfl
    exact hTot rfl
  refine ⟨?_, ?_, ?_, rfl, rfl, rfl, rfl, ?_⟩
  · intro h1 h2
    subst h1
    subst h2
    simp only [calculate_liquidity_score]
    rw [if_neg (by simpa using hne), if_neg hTot, if_pos (by simp)]
  · intro h1 h2
    subst h2
    simp only [calculate_liquidity_score]
    rw [if_neg (by simpa using hne), if_neg hTot, if_neg (by simp [h1])]
    simp
  · intro h1 h2
    subst h2
    simp only [calculate_liquidity_score]
    rw [if_neg (by simpa using hne), if_neg hTot, if_neg (by simp [h1]),
      if_neg (by simp)]
  · intro s h1 h2 h3
    simp [liquidityMapValue, h1, h2, h3]

/-- Counterexample to claim C7: on a table whose total value is 0 (here one
zero-valued row, and likewise on the empty table) the code returns 0, not the
0.5 the claim promises for a table without liquidity columns. -/
theorem liquidity_score_cex :
    calculate_liquidity_score [mkHolding "A" "Shares" none 0 0] false false false = 0
    ∧ (0 : Rat) ≠ 1/2 := by
  constructor
  · norm_num [calculate_liquidity_score, totalValuation, mkHolding]
  · norm_num

/-- Witness for claim C7 as amended: with neither liquidity column and a
nonzero total the score is the constant one half, through
liquidity_score_amended. -/
theorem liquidity_score_amended_witness :
    calculate_liquidity_score [mkHolding "A" "Shares" none 100 50] false false false = 1/2 :=
  (liquidity_score_amended [mkHolding "A" "Shares" none 100 50] false false false
    (by norm_num [totalValuation, mkHolding])).2.2.1 rfl rfl

/-- An account or type filter block keeps exactly the rows passing strPred. -/
theorem applyStrFilter_eq {α : Type} (get : α → String) (v : Option String) (df : List α) :
    applyStrFilter get v df = df.filter (fun r => strPred v (get r)) := by
  cases v with
  | none => simp [applyStrFilter, strPred]
  | some a =>
    by_cases hc : a ≠ "" ∧ a ≠ "all"
    · simp [applyStrFilter, strPred, hc]
    · simp [applyStrFilter, strPred, hc]

/-- A date-range filter block keeps exactly the rows passing datePred. -/
theorem applyDateFilter_eq {α : Type} (get : α → Int) (dr : Option (Option Int × Option Int))
    (df : List α) :
    applyDateFilter get dr df = df.filter (fun r => datePred dr (get r)) := by
  cases dr with
  | none => simp [applyDateFilter, datePred]
  | some p =>
    obtain ⟨sd, ed⟩ := p
    cases sd with
    | none =>
      cases ed with
      | none => simp [applyDateFilter, datePred]
      | some e => simp [applyDateFilter, datePred]
    | some s =>
      cases ed with
      | none => simp [applyDateFilter, datePred]
      | some e =>
        simp only [applyDateFilter, datePred]
        rw [List.filter_filter]
        apply List.filter_congr
        intro r _
        simp [Bool.and_comm]

/-- Claim C8: each of the three filter functions returns exactly the rows
satisfying the conjunction of the supplied account, type and inclusive
date-range predicates (and filter_nav then projects to the date and the
selected value column); inputs are never mutated — the embedding is a pure
function of the input list, mirroring the .copy() discipline of the code. -/
theorem filters_and_semantics (account_id asset_type tx_type : Option String)
    (dr : Option (Option Int × Option Int)) (holdings : List Holding)
    (transactions : List TransactionRow) (nav : NavTable) :
    filter_holdings holdings account_id asset_type dr
      = holdings.filter (fun h => strPred account_id h.account_id
          && strPred asset_type h.asset_type && datePred dr h.last_valuation_date)
    ∧ filter_transactions transactions account_id tx_type dr
      = transactions.filter (fun t => strPred account_id t.account_id
          && strPred tx_type t.type && datePred dr t.date)
    ∧ filter_nav nav account_id dr
      = (nav.rows.filter (fun r => datePred dr r.date)).map
          (fun r => (r.date, navValueColumn nav account_id r)) := by
  refine ⟨?_, ?_, ?_⟩
  · simp only [filter_holdings]
    rw [applyStrFilter_eq, applyStrFilter_eq, applyDateFilter_eq,
      List.filter_filter, List.filter_filter]
    apply List.filter_congr
    intro h _
    cases strPred account_id h.account_id <;> cases strPred asset_type h.asset_type
      <;> cases datePred dr h.last_valuation_date <;> rfl
  · simp only [filter_transactions]
    rw [applyStrFilter_eq, applyStrFilter_eq, applyDateFilter_eq,
      List.filter_filter, List.filter_filter]
    apply List.filter_congr
    intro t _
    cases strPred account_id t.account_id <;> cases strPred tx_type t.type
      <;> cases datePred dr t.date <;> rfl
  · simp only [filter_nav]
    rw [applyDateFilter_eq]

/-- Claim C9: for an account id that is a real account (not empty, not the
"all" sentinel) whose per-account column value_<account_id> is absent from
the NAV table, filter_nav silently falls back to the total_value column. -/
theorem filter_nav_total_value_fallback (nav : NavTable) (a : String)
    (dr : Option (Option Int × Option Int)) (h1 : a ≠ "") (h2 : a ≠ "all")
    (h3 : ("value_" ++ a) ∉ nav.columns) :
    filter_nav nav (some a) dr
      = (nav.rows.filter (fun r => datePred dr r.date)).map
          (fun r => (r.date, r.total_value)) := by
  simp only [filter_nav]
  rw [applyDateFilter_eq]
  apply List.map_congr_left
  intro r _
  simp [navValueColumn, h1, h2, h3]

/-- Witness for claim C9: a table with only date and total_value columns and
an unknown account through filter_nav_total_value_fallback. -/
theorem filter_nav_fallback_witness :
    filter_nav ⟨["date", "total_value"], [⟨0, 100, []⟩]⟩ (some "acc9") none = [(0, 100)] := by
  rw [filter_nav_total_value_fallback _ "acc9" none (by decide) (by decide) (by decide)]
  rfl

/-- Claim C10 amended: downsample_nav returns the input unchanged whenever it
has at most max_points rows; for max_points ≥ 1 and a longer input it returns
a strided subset of the input rows that always contains the last row.  (For
max_points = 0 and a nonempty input the code raises ZeroDivisionError instead
of returning, see the counterexample.) -/
theorem downsample_nav_amended (nav : List NavPoint) (mp : Nat) :
    (nav.length ≤ mp → downsample_nav nav mp = some nav)
    ∧ (1 ≤ mp → mp < nav.length →
        ∃ l, downsample_nav nav mp = some l
          ∧ (∀ r ∈ l, r ∈ nav)
          ∧ ∀ x, nav.getLast? = some x → x ∈ l) := by
  constructor
  · intro h
    simp only [downsample_nav]
    rw [if_pos]
    simp [h]
  · intro h1 h2
    have hmp0 : mp ≠ 0 := by omega
    have hnne : nav ≠ [] := by
      intro hc
      rw [hc] at h2
      simp at h2
    simp only [downsample_nav]
    rw [if_neg (by simp [hnne]; omega), if_neg hmp0]
    refine ⟨_, rfl, ?_, ?_⟩
    · intro r hr
      by_cases hc : ((nav.length - 1) % (nav.length / mp) == 0) = true
      · rw [if_pos hc] at hr
        rcases List.mem_filterMap.1 hr with ⟨i, -, hgi⟩
        exact List.getElem?_mem hgi
      · rw [if_neg hc] at hr
        rcases List.mem_append.1 hr with hr1 | hr2
        · rcases List.mem_filterMap.1 hr1 with ⟨i, -, hgi⟩
          exact List.getElem?_mem hgi
        · cases hgl : nav.getLast? with
          | none =>
            rw [hgl] at hr2
            simp at hr2
          | some y =>
            rw [hgl] at hr2
            simp at hr2
            rw [hr2]
            exact List.mem_of_mem_getLast? (Option.mem_def.mpr hgl)
    · intro x hx
      by_cases hc : ((nav.length - 1) % (nav.length / mp) == 0) = true
      · rw [if_pos hc]
        apply List.mem_filterMap.2
        refine ⟨nav.length - 1, ?_, ?_⟩
        · apply List.mem_filter.2
          refine ⟨List.mem_range.2 (by omega), hc⟩
        · rw [List.getLast?_eq_getElem?] at hx
          exact hx
      · rw [if_neg hc]
        apply List.mem_append_right
        rw [hx]
        simp

/-- Counterexample to claim C10: with max_points = 0 and a nonempty table the
strided branch divides by zero (ZeroDivisionError, modelled as none) instead
of returning a strided subset. -/
theorem downsample_nav_cex : downsample_nav [⟨0, 100⟩] 0 = none := rfl

/-- Witness for claim C10 as amended: the short-input identity branch and a
concrete strided downsample containing the last row, through
downsample_nav_amended. -/
theorem downsample_nav_amended_witness :
    downsample_nav [⟨0, 1⟩, ⟨1, 2⟩, ⟨2, 3⟩] 5 = some [⟨0, 1⟩, ⟨1, 2⟩, ⟨2, 3⟩]
    ∧ ∃ l, downsample_nav [⟨0, 1⟩, ⟨1, 2⟩, ⟨2, 3⟩, ⟨3, 4⟩, ⟨4, 5⟩] 2 = some l
        ∧ NavPoint.mk 4 5 ∈ l := by
  constructor
  · exact (downsample_nav_amended _ 5).1 (by norm_num)
  · obtain ⟨l, hl, -, hlast⟩ :=
      (downsample_nav_amended [⟨0, 1⟩, ⟨1, 2⟩, ⟨2, 3⟩, ⟨3, 4⟩, ⟨4, 5⟩] 2).2
        (by norm_num) (by norm_num)
    exact ⟨l, hl, hlast _ rfl⟩
